import Mathlib

set_option autoImplicit false

/-!
Shallow embedding of the tab-set storage layer of the `vscode-tab-hero`
extension: the `TabStorage` class of `src/storage.js`, the scope query of
its test double `MockTabStorage` in `src/test/storage.test.js`, and the
call sites in `src/extension.js`.

Modelling conventions:

* JavaScript string-or-missing values (the `branch` and `scope` fields and
  the current git branch) are modelled by `JStr`, which distinguishes
  `null`, `undefined` (absent field) and string values; `JStr.jeq` is
  JavaScript strict equality restricted to these values, and `JStr.truthy`
  is JavaScript truthiness (`null`, `undefined` and the empty string are
  falsy, every other string is truthy).
* ISO-8601 timestamps produced by `new Date().toISOString()` are modelled
  as natural numbers (milliseconds since the epoch); lexicographic
  comparison of such strings in the source is order-isomorphic to
  comparison of the instants.  All clock reads inside a single storage
  operation are modelled as one instant `now` passed explicitly; distinct
  operations may receive arbitrary instants.
* The id `Date.now().toString()` is modelled as `Nat.repr now`, the
  decimal string of the instant, exactly as in the source.
* Persistence is a read-modify-write of the whole JSON document, so every
  operation is a pure function from the persisted `Document` to its
  JavaScript return value together with the new persisted `Document`;
  whenever the source does not reach `writeData`, the input document is
  returned unchanged.
-/

/-- JavaScript value that is a string, `null`, or `undefined` (absent field). -/
inductive JStr where
  | jnull
  | jundef
  | jstr (s : String)
deriving DecidableEq

namespace JStr

/-- JavaScript strict equality restricted to `JStr` values. -/
def jeq : JStr → JStr → Bool
  | jnull, jnull => true
  | jundef, jundef => true
  | jstr a, jstr b => a == b
  | _, _ => false

/-- JavaScript truthiness: among these values exactly the nonempty strings are truthy. -/
def truthy : JStr → Bool
  | jstr s => s != ""
  | _ => false

end JStr

/-- One stored file reference inside a saved tab set (`uri`, `fileName`,
`languageId`), as produced by the `tabs.map` inside `saveTabSet`. -/
structure TabRef where
  uri : String
  fileName : String
  languageId : String
deriving DecidableEq

/-- Editor tab handed to `saveTabSet` by `extension.js`: it carries the
stringified `uri`, `fileName`, `languageId` and a `relativePath` that the
storage layer drops. -/
structure TabInput where
  uri : String
  fileName : String
  languageId : String
  relativePath : String
deriving DecidableEq

/-- One saved tab set record of the persisted JSON document.  A record
written by `storage.js` has no `scope` field, which is modelled as
`JStr.jundef`; records written by the mock (or by hand) may carry one. -/
structure TabSet where
  id : String
  name : String
  branch : JStr
  scope : JStr
  tabs : List TabRef
  createdAt : Nat
  updatedAt : Nat
  isFavorite : Bool
deriving DecidableEq

/-- The whole persisted document: the `tabSets` array and the redundant
`favorites` index of ids. -/
structure Document where
  tabSets : List TabSet
  favorites : List String
deriving DecidableEq

namespace TabStorage

/-- Document shape `\x7b tabSets: [], favorites: [] \x7d` used both at file
creation and as the fallback of `readData`. -/
def emptyDocument : Document := { tabSets := [], favorites := [] }

/-- Embedding of `readData`.  The file read is modelled as an
`Except String String` (a read failure or the raw text) and JSON parsing as
a function to `Except String Document`; the source wraps both in
`try ... catch` and substitutes the empty document shape on any failure,
so the embedding is a total function and no failure propagates. -/
def readData (parse : String → Except String Document)
    (raw : Except String String) : Document :=
  match raw with
  | .error _ => emptyDocument
  | .ok text =>
    match parse text with
    | .error _ => emptyDocument
    | .ok doc => doc

/-- Embedding of `saveTabSet(name, tabs, branch = null, isFavorite = false)`
from `src/storage.js`.  Note that this function accepts no `scope`
argument: the fifth argument passed by `extension.js` is silently dropped
by JavaScript, and the constructed record has no `scope` field
(`JStr.jundef`).  Returns the constructed tab set together with the
persisted document. -/
def saveTabSet (now : Nat) (name : String) (tabs : List TabInput)
    (branch : JStr) (isFavorite : Bool) (d : Document) : TabSet × Document :=
  let tabSet : TabSet :=
    { id := Nat.repr now
      name := name
      branch := branch
      scope := JStr.jundef
      tabs := tabs.map fun t => { uri := t.uri, fileName := t.fileName, languageId := t.languageId }
      createdAt := now
      updatedAt := now
      isFavorite := isFavorite }
  let favorites :=
    if isFavorite && !(d.favorites.contains tabSet.id) then
      d.favorites ++ [tabSet.id]
    else
      d.favorites
  (tabSet, { tabSets := d.tabSets ++ [tabSet], favorites := favorites })

/-- Embedding of `getAllTabSets()`. -/
def getAllTabSets (d : Document) : List TabSet :=
  d.tabSets

/-- Embedding of `getTabSetsByBranch(branch)`: strict-equality filter on the
`branch` field. -/
def getTabSetsByBranch (branch : JStr) (d : Document) : List TabSet :=
  d.tabSets.filter fun s => JStr.jeq s.branch branch

/-- Embedding of `getFavorites()`: filters on the `isFavorite` flag (not on
the `favorites` index). -/
def getFavorites (d : Document) : List TabSet :=
  d.tabSets.filter fun s => s.isFavorite

/-- Embedding of `getTabSetById(id)`: first record with the given id. -/
def getTabSetById (id : String) (d : Document) : Option TabSet :=
  d.tabSets.find? fun s => s.id == id

/-- JavaScript `Array.prototype.find` followed by in-place mutation of the
found element: the first element satisfying `p` is replaced by its image
under `f`, every other element is untouched. -/
def updateFirst (p : TabSet → Bool) (f : TabSet → TabSet) : List TabSet → List TabSet
  | [] => []
  | s :: rest => if p s then f s :: rest else s :: updateFirst p f rest

/-- Embedding of `renameTabSet(id, newName)`: if a record matches, set its
`name`, stamp `updatedAt` with the current instant, persist and return
`true`; otherwise return `false` without writing. -/
def renameTabSet (now : Nat) (id : String) (newName : String) (d : Document) :
    Bool × Document :=
  match d.tabSets.find? (fun s => s.id == id) with
  | some _ =>
    (true,
      { d with
        tabSets := updateFirst (fun s => s.id == id)
          (fun s => { s with name := newName, updatedAt := now }) d.tabSets })
  | none => (false, d)

/-- Embedding of `toggleFavorite(id)`: flip the flag of the first matching
record, stamp `updatedAt`, add the id to the `favorites` index when the new
flag is true (no duplicate insertion) and remove every occurrence when it
is false, persist, and return the new flag; return `false` without writing
when no record matches. -/
def toggleFavorite (now : Nat) (id : String) (d : Document) : Bool × Document :=
  match d.tabSets.find? (fun s => s.id == id) with
  | some tabSet =>
    let newFav := !tabSet.isFavorite
    let tabSets := updateFirst (fun s => s.id == id)
      (fun s => { s with isFavorite := !s.isFavorite, updatedAt := now }) d.tabSets
    let favorites :=
      if newFav then
        if d.favorites.contains id then d.favorites else d.favorites ++ [id]
      else
        d.favorites.filter fun fav => fav != id
    (newFav, { tabSets := tabSets, favorites := favorites })
  | none => (false, d)

/-- Embedding of `deleteTabSet(id)`: drop every record and favorites entry
with the given id; persist and return `true` only when the `tabSets` array
actually shrank, otherwise return `false` and leave the persisted document
as it was (the in-memory favorites filtering is discarded unwritten). -/
def deleteTabSet (id : String) (d : Document) : Bool × Document :=
  let tabSets := d.tabSets.filter fun s => s.id != id
  let favorites := d.favorites.filter fun fav => fav != id
  if tabSets.length < d.tabSets.length then
    (true, { tabSets := tabSets, favorites := favorites })
  else
    (false, d)

/-- Insertion of a record into a list sorted by descending `updatedAt`. -/
def insertByUpdatedDesc (s : TabSet) : List TabSet → List TabSet
  | [] => [s]
  | t :: rest =>
    if t.updatedAt ≤ s.updatedAt then s :: t :: rest
    else t :: insertByUpdatedDesc s rest

/-- Sort by descending `updatedAt`, the effect of
`sets.sort((a, b) => new Date(b.updatedAt) - new Date(a.updatedAt))`. -/
def sortByUpdatedDesc : List TabSet → List TabSet
  | [] => []
  | s :: rest => insertByUpdatedDesc s (sortByUpdatedDesc rest)

/-- Embedding of `getLatestTabSetForBranch(branch)`: `null` when no record
matches the branch, otherwise the head of the matching records sorted by
descending `updatedAt`. -/
def getLatestTabSetForBranch (branch : JStr) (d : Document) : Option TabSet :=
  match sortByUpdatedDesc (getTabSetsByBranch branch d) with
  | [] => none
  | s :: _ => some s

end TabStorage

namespace MockTabStorage

/-- Embedding of `getTabSetsByScope(currentBranch = null)` from
`src/test/storage.test.js` (the only implementation of the scope query in
the repository; `extension.js` calls it on the storage module).  The
cascade of guards is translated literally. -/
def visible (currentBranch : JStr) (s : TabSet) : Bool :=
  if JStr.jeq s.scope (JStr.jstr "project") then true
  else if JStr.jeq s.scope (JStr.jstr "branch") && JStr.truthy currentBranch then
    JStr.jeq s.branch currentBranch
  else if !JStr.truthy s.scope && JStr.truthy s.branch && JStr.truthy currentBranch then
    JStr.jeq s.branch currentBranch
  else if !JStr.truthy s.scope && !JStr.truthy s.branch then true
  else false

/-- Embedding of `getTabSetsByScope(currentBranch)`: the visibility filter
over the stored records. -/
def getTabSetsByScope (currentBranch : JStr) (d : Document) : List TabSet :=
  d.tabSets.filter (visible currentBranch)

end MockTabStorage

/-- Well-formedness of a branch value per the data model: a branch is
either absent (`null`/`undefined`) or a nonempty branch name.  (JavaScript
truthiness makes the empty string indistinguishable from an absent value
in the source, and the empty string is not a branch name.) -/
def branchWF : JStr → Bool
  | JStr.jstr s => s != ""
  | _ => true

/-- Well-formedness of a scope value per the data model: `branch`,
`project`, or absent (legacy record). -/
def scopeWF : JStr → Bool
  | JStr.jstr s => s == "branch" || s == "project"
  | _ => true

/-- Presence of a value in the sense of the specification: the field holds
a string (for well-formed values this coincides with JavaScript
truthiness). -/
def jpresent : JStr → Bool
  | JStr.jstr _ => true
  | _ => false

/-- The five-rule visibility relation exactly as the specification states
it: a `project`-scoped set is always visible; a `branch`-scoped set is
visible iff the current branch is present and equals the set's branch; a
legacy set (no scope) with a branch is visible iff the current branch is
present and equals it; a legacy set with neither scope nor branch is
always visible; every other combination is not visible. -/
def specVisible (currentBranch : JStr) (s : TabSet) : Bool :=
  if JStr.jeq s.scope (JStr.jstr "project") then true
  else if JStr.jeq s.scope (JStr.jstr "branch") then
    jpresent currentBranch && JStr.jeq s.branch currentBranch
  else if !jpresent s.scope && jpresent s.branch then
    jpresent currentBranch && JStr.jeq s.branch currentBranch
  else if !jpresent s.scope && !jpresent s.branch then true
  else false

/-- One mutating storage operation, with the arguments the UI layer
supplies; used to describe the documents reachable through the store. -/
inductive Op where
  | save (name : String) (tabs : List TabInput) (branch : JStr) (isFavorite : Bool)
  | rename (id : String) (newName : String)
  | toggle (id : String)
  | delete (id : String)

/-- Effect of one operation on the persisted document at instant `now`
(the JavaScript return value is discarded). -/
def applyOp (now : Nat) : Op → Document → Document
  | Op.save name tabs branch isFavorite => fun d =>
      (TabStorage.saveTabSet now name tabs branch isFavorite d).2
  | Op.rename id newName => fun d => (TabStorage.renameTabSet now id newName d).2
  | Op.toggle id => fun d => (TabStorage.toggleFavorite now id d).2
  | Op.delete id => fun d => (TabStorage.deleteTabSet id d).2

/-- Run a sequence of timestamped operations against a document. -/
def runOps : Document → List (Nat × Op) → Document
  | d, [] => d
  | d, (now, op) :: rest => runOps (applyOp now op d) rest

/-- Arguments of one `saveTabSet` call. -/
structure SaveArgs where
  name : String
  tabs : List TabInput
  branch : JStr
  isFavorite : Bool

/-- Run a sequence of timestamped `saveTabSet` calls against a document. -/
def runSaves : Document → List (Nat × SaveArgs) → Document
  | d, [] => d
  | d, (now, a) :: rest =>
    runSaves (TabStorage.saveTabSet now a.name a.tabs a.branch a.isFavorite d).2 rest

/-- Timestamp sanity of a document relative to a bound `t`: every record
was created no later than it was updated, and updated no later than `t`. -/
def TimeOK (t : Nat) (d : Document) : Prop :=
  ∀ s ∈ d.tabSets, s.createdAt ≤ s.updatedAt ∧ s.updatedAt ≤ t

/-- Sample open tab, in the shape `extension.js` hands to the store. -/
def sampleTab : TabInput :=
  { uri := "file:///test1.js", fileName := "test1.js", languageId := "javascript"
    relativePath := "test1.js" }

/-- Plain record used to build sample documents. -/
def mkSet (id name : String) (branch scope : JStr) (created updated : Nat)
    (fav : Bool) : TabSet :=
  { id := id, name := name, branch := branch, scope := scope, tabs := []
    createdAt := created, updatedAt := updated, isFavorite := fav }

/-- Sample document realising the scope-resolution truth table of the
specification: a branch-scoped set on `main`, one on `feature`, a
project-scoped set, a legacy set tagged `main`, and a legacy set with
neither scope nor branch. -/
def scopeDoc : Document :=
  { tabSets :=
      [ mkSet "1" "Main Branch Set" (JStr.jstr "main") (JStr.jstr "branch") 1 1 false
      , mkSet "2" "Feature Branch Set" (JStr.jstr "feature") (JStr.jstr "branch") 2 2 false
      , mkSet "3" "Project Set" JStr.jnull (JStr.jstr "project") 3 3 false
      , mkSet "4" "Legacy Main" (JStr.jstr "main") JStr.jundef 4 4 false
      , mkSet "5" "Very Old Set" JStr.jundef JStr.jundef 5 5 false ]
    favorites := [] }

/-- Document produced by two `saveTabSet` calls at the same clock instant. -/
def sameInstantDoc : Document :=
  (TabStorage.saveTabSet 7 "B" [] JStr.jnull false
    (TabStorage.saveTabSet 7 "A" [] JStr.jnull false TabStorage.emptyDocument).2).2

/-- Two `saveTabSet` calls at distinct clock instants. -/
def distinctSaves : List (Nat × SaveArgs) :=
  [ (1, { name := "A", tabs := [], branch := JStr.jnull, isFavorite := false })
  , (2, { name := "B", tabs := [], branch := JStr.jnull, isFavorite := false }) ]

/-- Single record created and last updated at instant 5, not a favorite. -/
def renameSet : TabSet := mkSet "10" "Old Name" (JStr.jstr "main") JStr.jundef 5 5 false

/-- Document holding only `renameSet`. -/
def renameDoc : Document := { tabSets := [renameSet], favorites := [] }

/-- Record used for the favorite-toggling scenario. -/
def toggleSet : TabSet := mkSet "15" "Toggle Set" (JStr.jstr "main") JStr.jundef 5 5 false

/-- Document holding only `toggleSet`. -/
def toggleDoc : Document := { tabSets := [toggleSet], favorites := [] }

/-- Favorite record used for the deletion scenario. -/
def deleteSet : TabSet := mkSet "20" "To Delete" JStr.jnull JStr.jundef 5 5 true

/-- Document holding `deleteSet`, whose id is also in the favorites index. -/
def deleteDoc : Document := { tabSets := [deleteSet], favorites := ["20"] }

/-- Document whose favorites index holds an id with no matching record. -/
def strayFavoriteDoc : Document := { tabSets := [], favorites := ["x"] }

/-- Document with three records on branch `main` and one on `develop`. -/
def latestDoc : Document :=
  { tabSets :=
      [ mkSet "30" "Older" (JStr.jstr "main") JStr.jundef 1 3 false
      , mkSet "31" "Newest" (JStr.jstr "main") JStr.jundef 2 9 false
      , mkSet "32" "Middle" (JStr.jstr "main") JStr.jundef 3 4 false
      , mkSet "33" "Other" (JStr.jstr "develop") JStr.jundef 5 50 false ]
    favorites := [] }

/-- Parse function that rejects every input, modelling a `JSON.parse` throw. -/
def failingParse : String → Except String Document :=
  fun _ => Except.error "Unexpected token"

/-- Sample operation sequence with non-decreasing instants. -/
def sampleOps : List (Nat × Op) :=
  [ (1, Op.save "A" [sampleTab] (JStr.jstr "main") true)
  , (3, Op.rename "1" "B")
  , (3, Op.toggle "1")
  , (4, Op.save "C" [] JStr.jnull false)
  , (6, Op.delete "1") ]

section ListHelpers

variable {α : Type} {p : α → Bool}

theorem find?_eq_some_decomp {l : List α} {x : α} (h : l.find? p = some x) :
    ∃ a b, l = a ++ x :: b ∧ (∀ y ∈ a, p y = false) ∧ p x = true := by
  induction l with
  | nil => simp at h
  | cons s rest ih =>
    cases hp : p s with
    | true =>
      rw [List.find?_cons, hp] at h
      injection h with h
      subst h
      exact ⟨[], rest, rfl, by simp, hp⟩
    | false =>
      rw [List.find?_cons, hp] at h
      obtain ⟨a, b, rfl, ha, hx⟩ := ih h
      refine ⟨s :: a, b, rfl, ?_, hx⟩
      intro y hy
      rcases List.mem_cons.1 hy with rfl | hy
      · exact hp
      · exact ha y hy

theorem find?_append_cons {a : List α} {x : α} {b : List α}
    (ha : ∀ y ∈ a, p y = false) (hx : p x = true) :
    (a ++ x :: b).find? p = some x := by
  induction a with
  | nil => simp [List.find?_cons, hx]
  | cons s rest ih =>
    have hs : p s = false := ha s (List.mem_cons_self s rest)
    rw [List.cons_append, List.find?_cons, hs]
    exact ih fun y hy => ha y (List.mem_cons_of_mem s hy)

theorem filter_eq_singleton_decomp {l : List α} {x : α} (h : l.filter p = [x]) :
    ∃ a b, l = a ++ x :: b ∧ (∀ y ∈ a, p y = false) ∧ p x = true ∧
      ∀ y ∈ b, p y = false := by
  induction l with
  | nil => simp at h
  | cons s rest ih =>
    cases hp : p s with
    | true =>
      rw [List.filter_cons_of_pos hp] at h
      obtain ⟨hs, hrest⟩ : s = x ∧ rest.filter p = [] := by
        constructor <;> injection h
      subst hs
      refine ⟨[], rest, rfl, by simp, hp, ?_⟩
      intro y hy
      have := List.filter_eq_nil_iff.1 hrest y hy
      simpa using this
    | false =>
      rw [List.filter_cons_of_neg (by simp [hp])] at h
      obtain ⟨a, b, rfl, ha, hx, hb⟩ := ih h
      refine ⟨s :: a, b, rfl, ?_, hx, hb⟩
      intro y hy
      rcases List.mem_cons.1 hy with rfl | hy
      · exact hp
      · exact ha y hy

theorem filter_append_singleton {a : List α} {x : α} {b : List α}
    (ha : ∀ y ∈ a, p y = false) (hx : p x = true) (hb : ∀ y ∈ b, p y = false) :
    (a ++ x :: b).filter p = [x] := by
  have h1 : a.filter p = [] := List.filter_eq_nil_iff.2 fun y hy => by simp [ha y hy]
  have h2 : b.filter p = [] := List.filter_eq_nil_iff.2 fun y hy => by simp [hb y hy]
  rw [List.filter_append, h1, List.filter_cons_of_pos hx, h2]
  rfl

end ListHelpers

namespace TabStorage

theorem updateFirst_append {p : TabSet → Bool} {f : TabSet → TabSet} {a : List TabSet}
    {x : TabSet} {b : List TabSet} (ha : ∀ y ∈ a, p y = false) (hx : p x = true) :
    updateFirst p f (a ++ x :: b) = a ++ f x :: b := by
  induction a with
  | nil => simp [updateFirst, hx]
  | cons s rest ih =>
    have hs : p s = false := ha s (List.mem_cons_self s rest)
    have ih2 := ih fun y hy => ha y (List.mem_cons_of_mem s hy)
    simp [updateFirst, hs, ih2]

theorem updateFirst_forall {p : TabSet → Bool} {f : TabSet → TabSet} {Q : TabSet → Prop}
    {l : List TabSet} (h1 : ∀ y ∈ l, Q y) (h2 : ∀ y ∈ l, Q (f y)) :
    ∀ z ∈ updateFirst p f l, Q z := by
  induction l with
  | nil => simp [updateFirst]
  | cons s rest ih =>
    intro z hz
    by_cases hp : p s = true
    · simp only [updateFirst, hp, if_pos] at hz
      rcases List.mem_cons.1 hz with rfl | hz
      · exact h2 s (List.mem_cons_self s rest)
      · exact h1 z (List.mem_cons_of_mem s hz)
    · simp only [updateFirst, hp, if_neg, if_false] at hz
      rcases List.mem_cons.1 hz with rfl | hz
      · exact h1 z (List.mem_cons_self z rest)
      · exact ih (fun y hy => h1 y (List.mem_cons_of_mem s hy))
          (fun y hy => h2 y (List.mem_cons_of_mem s hy)) z hz

theorem mem_insertByUpdatedDesc {x s : TabSet} {l : List TabSet} :
    x ∈ insertByUpdatedDesc s l ↔ x = s ∨ x ∈ l := by
  induction l with
  | nil => simp [insertByUpdatedDesc]
  | cons t rest ih =>
    by_cases h : t.updatedAt ≤ s.updatedAt
    · simp [insertByUpdatedDesc, h]
    · simp only [insertByUpdatedDesc, if_neg h, List.mem_cons, ih]
      tauto

theorem mem_sortByUpdatedDesc {x : TabSet} {l : List TabSet} :
    x ∈ sortByUpdatedDesc l ↔ x ∈ l := by
  induction l with
  | nil => simp [sortByUpdatedDesc]
  | cons s rest ih => simp [sortByUpdatedDesc, mem_insertByUpdatedDesc, ih]

theorem sortByUpdatedDesc_eq_nil {l : List TabSet} :
    sortByUpdatedDesc l = [] ↔ l = [] := by
  cases l with
  | nil => simp [sortByUpdatedDesc]
  | cons s rest =>
    simp only [sortByUpdatedDesc]
    constructor
    · intro h
      exfalso
      cases hrest : sortByUpdatedDesc rest with
      | nil => rw [hrest] at h; simp [insertByUpdatedDesc] at h
      | cons t r =>
        rw [hrest] at h
        by_cases hle : t.updatedAt ≤ s.updatedAt
        · simp [insertByUpdatedDesc, hle] at h
        · simp [insertByUpdatedDesc, hle] at h
    · intro h
      simp at h

theorem sortByUpdatedDesc_head_max :
    ∀ {l : List TabSet} {s : TabSet} {rest : List TabSet},
      sortByUpdatedDesc l = s :: rest → ∀ x ∈ l, x.updatedAt ≤ s.updatedAt := by
  intro l
  induction l with
  | nil => intro s rest h; simp [sortByUpdatedDesc] at h
  | cons y l2 ih =>
    intro s rest h x hx
    rw [sortByUpdatedDesc] at h
    cases h2 : sortByUpdatedDesc l2 with
    | nil =>
      have hl2 : l2 = [] := sortByUpdatedDesc_eq_nil.1 h2
      rw [h2] at h
      simp only [insertByUpdatedDesc, List.cons.injEq] at h
      subst hl2
      rcases List.mem_cons.1 hx with rfl | hx
      · rw [h.1]
      · simp at hx
    | cons z r =>
      have hz : ∀ w ∈ l2, w.updatedAt ≤ z.updatedAt := ih h2
      rw [h2] at h
      by_cases hle : z.updatedAt ≤ y.updatedAt
      · rw [insertByUpdatedDesc, if_pos hle] at h
        have hs : s = y := by injection h with h1 _; exact h1.symm
        subst hs
        rcases List.mem_cons.1 hx with rfl | hx
        · exact Nat.le_refl _
        · exact Nat.le_trans (hz x hx) hle
      · rw [insertByUpdatedDesc, if_neg hle] at h
        have hs : s = z := by injection h with h1 _; exact h1.symm
        subst hs
        rcases List.mem_cons.1 hx with rfl | hx
        · exact Nat.le_of_not_le hle
        · exact hz x hx

end TabStorage

theorem toDigitsCore_shift (b : Nat) :
    ∀ (fuel n : Nat) (ds : List Char),
      Nat.toDigitsCore b fuel n ds = Nat.toDigitsCore b fuel n [] ++ ds := by
  intro fuel
  induction fuel with
  | zero => intro n ds; simp [Nat.toDigitsCore]
  | succ fuel ih =>
    intro n ds
    simp only [Nat.toDigitsCore]
    by_cases h : n / b = 0
    · simp [h]
    · simp only [h, if_neg, if_false]
      rw [ih (n / b) (Nat.digitChar (n % b) :: ds), ih (n / b) [Nat.digitChar (n % b)]]
      simp

theorem toDigitsCore_eq_digits :
    ∀ (fuel n : Nat), 0 < n → n ≤ fuel →
      Nat.toDigitsCore 10 fuel n [] = ((Nat.digits 10 n).map Nat.digitChar).reverse := by
  intro fuel
  induction fuel with
  | zero => intro n h1 h2; omega
  | succ fuel ih =>
    intro n h1 h2
    have hdig : Nat.digits 10 n = n % 10 :: Nat.digits 10 (n / 10) :=
      Nat.digits_def' (by norm_num) h1
    simp only [Nat.toDigitsCore]
    by_cases h : n / 10 = 0
    · rw [hdig, h]
      simp [h]
    · have hpos : 0 < n / 10 := Nat.pos_of_ne_zero h
      have hle : n / 10 ≤ fuel := by
        have : n / 10 < n := Nat.div_lt_self h1 (by norm_num)
        omega
      simp only [h, if_neg, if_false]
      rw [toDigitsCore_shift, ih (n / 10) hpos hle, hdig]
      simp

theorem digitChar_inj_lt :
    ∀ a < 10, ∀ b < 10, Nat.digitChar a = Nat.digitChar b → a = b := by decide

theorem map_digitChar_inj :
    ∀ (l1 l2 : List Nat), (∀ x ∈ l1, x < 10) → (∀ x ∈ l2, x < 10) →
      l1.map Nat.digitChar = l2.map Nat.digitChar → l1 = l2 := by
  intro l1
  induction l1 with
  | nil =>
    intro l2 _ _ h
    cases l2 with
    | nil => rfl
    | cons y r2 => simp at h
  | cons x r ih =>
    intro l2 h1 h2 h
    cases l2 with
    | nil => simp at h
    | cons y r2 =>
      simp only [List.map_cons, List.cons.injEq] at h
      have hx : x = y :=
        digitChar_inj_lt x (h1 x (List.mem_cons_self x r)) y (h2 y (List.mem_cons_self y r2)) h.1
      rw [hx, ih r2 (fun z hz => h1 z (List.mem_cons_of_mem x hz))
        (fun z hz => h2 z (List.mem_cons_of_mem y hz)) h.2]

theorem toDigits_eq_digits_of_pos {n : Nat} (h : 0 < n) :
    Nat.toDigits 10 n = ((Nat.digits 10 n).map Nat.digitChar).reverse :=
  toDigitsCore_eq_digits (n + 1) n h (Nat.le_succ n)

theorem natRepr_inj {m n : Nat} (h : Nat.repr m = Nat.repr n) : m = n := by
  have hlist : Nat.toDigits 10 m = Nat.toDigits 10 n := by
    have hd := congrArg String.data h
    simpa [Nat.repr, List.asString] using hd
  have hzero : ∀ k : Nat, 0 < k → Nat.toDigits 10 k = ['0'] → False := by
    intro k hk hko
    rw [toDigits_eq_digits_of_pos hk] at hko
    have hmap : (Nat.digits 10 k).map Nat.digitChar = ['0'] := by
      have := congrArg List.reverse hko
      simpa using this
    have hdk : Nat.digits 10 k = [0] := by
      apply map_digitChar_inj (Nat.digits 10 k) [0]
        (fun x hx => Nat.digits_lt_base (by norm_num) hx) (by simp)
      simpa [Nat.digitChar] using hmap
    have hofd := Nat.ofDigits_digits 10 k
    rw [hdk] at hofd
    simp [Nat.ofDigits] at hofd
    omega
  rcases Nat.eq_zero_or_pos m with hm | hm
  · rcases Nat.eq_zero_or_pos n with hn | hn
    · omega
    · subst hm
      exact absurd hlist.symm (fun hc => hzero n hn (by simpa using hc))
  · rcases Nat.eq_zero_or_pos n with hn | hn
    · subst hn
      exact absurd hlist (fun hc => hzero m hm (by simpa using hc))
    · rw [toDigits_eq_digits_of_pos hm, toDigits_eq_digits_of_pos hn] at hlist
      have hmap : (Nat.digits 10 m).map Nat.digitChar = (Nat.digits 10 n).map Nat.digitChar :=
        List.reverse_injective hlist
      have hdig : Nat.digits 10 m = Nat.digits 10 n :=
        map_digitChar_inj _ _ (fun x hx => Nat.digits_lt_base (by norm_num) hx)
          (fun x hx => Nat.digits_lt_base (by norm_num) hx) hmap
      have h1 := Nat.ofDigits_digits 10 m
      have h2 := Nat.ofDigits_digits 10 n
      rw [hdig] at h1
      omega

theorem visible_eq_specVisible (cb : JStr) (s : TabSet)
    (hcb : branchWF cb = true) (hsc : scopeWF s.scope = true)
    (hbr : branchWF s.branch = true) :
    MockTabStorage.visible cb s = specVisible cb s := by
  obtain ⟨id, name, branch, scope, tabs, ca, ua, fav⟩ := s
  simp only [branchWF, scopeWF] at hcb hsc hbr
  cases scope <;> cases branch <;> cases cb <;>
    simp_all [MockTabStorage.visible, specVisible, JStr.jeq, JStr.truthy, jpresent] <;>
    (try rcases hsc with rfl | rfl) <;> simp_all

/-- C1: for every document and every candidate current branch (with branch
and scope values shaped as the data model prescribes), the scope query
`getTabSetsByScope(currentBranch)` returns exactly the stored tab sets
satisfying the five-rule visibility relation of the specification
(`specVisible`): project-scoped sets always; branch-scoped sets iff the
current branch is present and equal to the set's branch; legacy sets with a
branch iff the current branch is present and equal to it; legacy sets with
neither scope nor branch always; nothing else. -/
theorem getTabSetsByScope_matches_spec (cb : JStr) (d : Document)
    (hcb : branchWF cb = true)
    (hwf : ∀ s ∈ d.tabSets, scopeWF s.scope = true ∧ branchWF s.branch = true) :
    MockTabStorage.getTabSetsByScope cb d = d.tabSets.filter (specVisible cb) := by
  unfold MockTabStorage.getTabSetsByScope
  exact List.filter_congr fun s hs =>
    visible_eq_specVisible cb s hcb (hwf s hs).1 (hwf s hs).2

/-- Witness for C1: the truth-table document of the specification queried
with current branch `main`. -/
theorem getTabSetsByScope_matches_spec_witness :
    branchWF (JStr.jstr "main") = true ∧
    (∀ s ∈ scopeDoc.tabSets, scopeWF s.scope = true ∧ branchWF s.branch = true) ∧
    MockTabStorage.getTabSetsByScope (JStr.jstr "main") scopeDoc
      = scopeDoc.tabSets.filter (specVisible (JStr.jstr "main")) :=
  ⟨by decide, by decide,
    getTabSetsByScope_matches_spec (JStr.jstr "main") scopeDoc (by decide) (by decide)⟩

/-- C2 (code bug evidence): the real `saveTabSet` of `src/storage.js`
accepts no `scope` parameter, so the tab set it returns for the test
suite's canonical call carries no `scope` field at all, contradicting the
claimed `save(name, tabs, branch, isFavorite, scope)` contract under which
the returned set carries `scope == 'project'`. -/
theorem saveTabSet_drops_scope :
    ((TabStorage.saveTabSet 1000 "Test Set" [sampleTab] (JStr.jstr "main") false
        TabStorage.emptyDocument).1).scope = JStr.jundef ∧
    ((TabStorage.saveTabSet 1000 "Test Set" [sampleTab] (JStr.jstr "main") false
        TabStorage.emptyDocument).1).scope ≠ JStr.jstr "project" ∧
    ((TabStorage.saveTabSet 1000 "Test Set" [sampleTab] (JStr.jstr "main") false
        TabStorage.emptyDocument).1).name = "Test Set" := by decide

/-- C3 counterexample: two saves performed at the same clock instant (the
same `Date.now()` millisecond, here 7) both receive the id `"7"`, so the
ids of the resulting document are not pairwise distinct. -/
theorem save_ids_collide_at_same_instant :
    sameInstantDoc.tabSets.map TabSet.id = ["7", "7"] ∧
    ¬ (sameInstantDoc.tabSets.map TabSet.id).Nodup := by decide

theorem runSaves_map_id :
    ∀ (saves : List (Nat × SaveArgs)) (d : Document),
      (runSaves d saves).tabSets.map TabSet.id
        = d.tabSets.map TabSet.id ++ saves.map (fun x => Nat.repr x.1) := by
  intro saves
  induction saves with
  | nil => intro d; simp [runSaves]
  | cons head rest ih =>
    obtain ⟨now, a⟩ := head
    intro d
    rw [runSaves, ih]
    simp [TabStorage.saveTabSet]

/-- C3 (amended): for every sequence of saves starting from the empty
document, the ids of the resulting tab sets are pairwise distinct provided
no two of the saves happen at the same clock instant (the id is the decimal
string of the save's millisecond instant, so same-instant saves collide). -/
theorem save_ids_distinct_of_distinct_instants (saves : List (Nat × SaveArgs))
    (h : (saves.map Prod.fst).Nodup) :
    ((runSaves TabStorage.emptyDocument saves).tabSets.map TabSet.id).Nodup := by
  rw [runSaves_map_id]
  have hrw : saves.map (fun x => Nat.repr x.1) = (saves.map Prod.fst).map Nat.repr := by
    simp [List.map_map]
  simp only [TabStorage.emptyDocument, List.map_nil, List.nil_append, hrw]
  exact h.map fun a b hab => natRepr_inj hab

/-- Witness for C3 (amended): two saves at instants 1 and 2 produce
pairwise distinct ids. -/
theorem save_ids_distinct_of_distinct_instants_witness :
    (distinctSaves.map Prod.fst).Nodup ∧
    ((runSaves TabStorage.emptyDocument distinctSaves).tabSets.map TabSet.id).Nodup :=
  ⟨by decide, save_ids_distinct_of_distinct_instants distinctSaves (by decide)⟩

/-- C4 counterexample: renaming at the very instant of the record's last
update (instant 5 in both cases) returns true and sets the name, but the
resulting `updatedAt` equals 5, the value it had before the rename, so it
is not strictly later. -/
theorem rename_not_strictly_later_at_same_instant :
    (TabStorage.renameTabSet 5 "10" "New Name" renameDoc).1 = true ∧
    TabStorage.getTabSetById "10" (TabStorage.renameTabSet 5 "10" "New Name" renameDoc).2
      = some (mkSet "10" "New Name" (JStr.jstr "main") JStr.jundef 5 5 false) ∧
    ¬ renameSet.updatedAt < 5 := by decide

/-- C4 (amended): for an id whose record exists, renaming at an instant
strictly after the record's last update returns true, and `getTabSetById`
afterwards yields the new name with `updatedAt` equal to the rename
instant, strictly later than before; renaming an id matching no record
returns false and leaves the persisted document unchanged. -/
theorem rename_updates_name_and_timestamp (d : Document) (i n : String) (s0 : TabSet)
    (now : Nat) (hfind : d.tabSets.find? (fun s => s.id == i) = some s0)
    (hlt : s0.updatedAt < now) :
    (TabStorage.renameTabSet now i n d).1 = true ∧
    (∃ t, TabStorage.getTabSetById i (TabStorage.renameTabSet now i n d).2 = some t ∧
      t.name = n ∧ t.updatedAt = now ∧ s0.updatedAt < t.updatedAt) ∧
    ∀ (e : Document) (j m : String), (∀ s ∈ e.tabSets, (s.id == j) = false) →
      TabStorage.renameTabSet now j m e = (false, e) := by
  refine ⟨?_, ?_, ?_⟩
  · simp [TabStorage.renameTabSet, hfind]
  · obtain ⟨a, b, hl, ha, hx⟩ := find?_eq_some_decomp hfind
    refine ⟨{ s0 with name := n, updatedAt := now }, ?_, rfl, rfl, hlt⟩
    have hred : (TabStorage.renameTabSet now i n d).2 =
        { d with
          tabSets :=
            TabStorage.updateFirst (fun s => s.id == i)
              (fun s => { s with name := n, updatedAt := now }) d.tabSets } := by
      simp [TabStorage.renameTabSet, hfind]
    rw [TabStorage.getTabSetById, hred]
    simp only [hl, TabStorage.updateFirst_append ha hx]
    exact find?_append_cons ha hx
  · intro e j m hnone
    have : e.tabSets.find? (fun s => s.id == j) = none :=
      List.find?_eq_none.2 fun x hx => by simp [hnone x hx]
    simp [TabStorage.renameTabSet, this]

/-- Witness for C4 (amended): renaming the sample record (last updated at
instant 5) at instant 9. -/
theorem rename_updates_name_and_timestamp_witness :
    renameDoc.tabSets.find? (fun s => s.id == "10") = some renameSet ∧
    renameSet.updatedAt < 9 ∧
    (TabStorage.renameTabSet 9 "10" "New Name" renameDoc).1 = true ∧
    (∃ t, TabStorage.getTabSetById "10"
        (TabStorage.renameTabSet 9 "10" "New Name" renameDoc).2 = some t ∧
      t.name = "New Name" ∧ t.updatedAt = 9 ∧ renameSet.updatedAt < t.updatedAt) :=
  ⟨by decide, by decide,
    (rename_updates_name_and_timestamp renameDoc "10" "New Name" renameSet 9
      (by decide) (by decide)).1,
    (rename_updates_name_and_timestamp renameDoc "10" "New Name" renameSet 9
      (by decide) (by decide)).2.1⟩

/-- C5: on a document whose unique record with id `i` is not a favorite,
toggling twice returns true then false; after the first call the record is
among `getFavorites()` and its id is in the favorites index, after the
second it is in neither; each call stamps `updatedAt` with its instant and
leaves the flag and the index consistent for that id; toggling an id that
matches no record returns false and leaves the document unchanged. -/
theorem toggleFavorite_double_toggle (d : Document) (i : String) (s0 : TabSet)
    (now1 now2 : Nat)
    (hone : d.tabSets.filter (fun s => s.id == i) = [s0])
    (hfav : s0.isFavorite = false) :
    (TabStorage.toggleFavorite now1 i d).1 = true ∧
    (TabStorage.toggleFavorite now2 i (TabStorage.toggleFavorite now1 i d).2).1 = false ∧
    (∃ t ∈ TabStorage.getFavorites (TabStorage.toggleFavorite now1 i d).2, t.id = i) ∧
    (∀ t ∈ TabStorage.getFavorites
        (TabStorage.toggleFavorite now2 i (TabStorage.toggleFavorite now1 i d).2).2,
      t.id ≠ i) ∧
    i ∈ (TabStorage.toggleFavorite now1 i d).2.favorites ∧
    i ∉ (TabStorage.toggleFavorite now2 i (TabStorage.toggleFavorite now1 i d).2).2.favorites ∧
    (∀ t ∈ (TabStorage.toggleFavorite now1 i d).2.tabSets, t.id = i →
      t.isFavorite = true ∧ t.updatedAt = now1) ∧
    (∀ t ∈ (TabStorage.toggleFavorite now2 i (TabStorage.toggleFavorite now1 i d).2).2.tabSets,
      t.id = i → t.isFavorite = false ∧ t.updatedAt = now2) ∧
    (∀ (e : Document) (j : String) (m : Nat), (∀ s ∈ e.tabSets, (s.id == j) = false) →
      TabStorage.toggleFavorite m j e = (false, e)) := by
  obtain ⟨a, b, hl, ha, hx, hb⟩ := filter_eq_singleton_decomp hone
  have hid : s0.id = i := by simpa using hx
  have hfind1 : d.tabSets.find? (fun s => s.id == i) = some s0 := by
    rw [hl]; exact find?_append_cons ha hx
  have hred1 : TabStorage.toggleFavorite now1 i d =
      (true,
        { tabSets :=
            TabStorage.updateFirst (fun s => s.id == i)
              (fun s => { s with isFavorite := !s.isFavorite, updatedAt := now1 }) d.tabSets
          favorites :=
            if d.favorites.contains i then d.favorites else d.favorites ++ [i] }) := by
    simp [TabStorage.toggleFavorite, hfind1, hfav]
  have hupd1 : TabStorage.updateFirst (fun s => s.id == i)
      (fun s => { s with isFavorite := !s.isFavorite, updatedAt := now1 }) d.tabSets
      = a ++ { s0 with isFavorite := true, updatedAt := now1 } :: b := by
    rw [hl, TabStorage.updateFirst_append ha hx]
    simp [hfav]
  have hfind2 : (a ++ { s0 with isFavorite := true, updatedAt := now1 } :: b).find?
      (fun s => s.id == i) = some { s0 with isFavorite := true, updatedAt := now1 } :=
    find?_append_cons ha hx
  have hupd2 : TabStorage.updateFirst (fun s => s.id == i)
      (fun s => { s with isFavorite := !s.isFavorite, updatedAt := now2 })
      (a ++ { s0 with isFavorite := true, updatedAt := now1 } :: b)
      = a ++ { s0 with isFavorite := false, updatedAt := now2 } :: b :=
    TabStorage.updateFirst_append ha hx
  have hred2 : TabStorage.toggleFavorite now2 i
      { tabSets := a ++ { s0 with isFavorite := true, updatedAt := now1 } :: b
        favorites := if d.favorites.contains i then d.favorites else d.favorites ++ [i] } =
      (false,
        { tabSets := a ++ { s0 with isFavorite := false, updatedAt := now2 } :: b
          favorites := (if d.favorites.contains i then d.favorites
            else d.favorites ++ [i]).filter fun fav => fav != i }) := by
    simp only [TabStorage.toggleFavorite, hfind2, hupd2]
    simp
  rw [hred1]
  simp only [hupd1, hred2]
  refine ⟨trivial, trivial, ?_, ?_, ?_, ?_, ?_, ?_, ?_⟩
  · refine ⟨{ s0 with isFavorite := true, updatedAt := now1 }, ?_, hid⟩
    unfold TabStorage.getFavorites
    exact List.mem_filter.2
      ⟨List.mem_append.2 (Or.inr (List.mem_cons_self _ _)), rfl⟩
  · intro t ht
    obtain ⟨hmem, hfavt⟩ := List.mem_filter.1 ht
    rcases List.mem_append.1 hmem with hmem | hmem
    · intro he
      have := ha t hmem
      rw [he] at this
      simp at this
    · rcases List.mem_cons.1 hmem with rfl | hmem
      · simp at hfavt
      · intro he
        have := hb t hmem
        rw [he] at this
        simp at this
  · by_cases hc : i ∈ d.favorites <;> simp [hc]
  · intro hmem
    have := (List.mem_filter.1 hmem).2
    simp at this
  · intro t ht hti
    rcases List.mem_append.1 ht with hmem | hmem
    · have := ha t hmem
      rw [hti] at this
      simp at this
    · rcases List.mem_cons.1 hmem with rfl | hmem
      · exact ⟨rfl, rfl⟩
      · have := hb t hmem
        rw [hti] at this
        simp at this
  · intro t ht hti
    rcases List.mem_append.1 ht with hmem | hmem
    · have := ha t hmem
      rw [hti] at this
      simp at this
    · rcases List.mem_cons.1 hmem with rfl | hmem
      · exact ⟨rfl, rfl⟩
      · have := hb t hmem
        rw [hti] at this
        simp at this
  · intro e j m hnone
    have hn : e.tabSets.find? (fun s => s.id == j) = none :=
      List.find?_eq_none.2 fun x hxe => by simp [hnone x hxe]
    simp [TabStorage.toggleFavorite, hn]

/-- Witness for C5: the sample one-record document, toggled at instants 6
and 7. -/
theorem toggleFavorite_double_toggle_witness :
    toggleDoc.tabSets.filter (fun s => s.id == "15") = [toggleSet] ∧
    toggleSet.isFavorite = false ∧
    (TabStorage.toggleFavorite 6 "15" toggleDoc).1 = true ∧
    (TabStorage.toggleFavorite 7 "15" (TabStorage.toggleFavorite 6 "15" toggleDoc).2).1
      = false :=
  ⟨by decide, by decide,
    (toggleFavorite_double_toggle toggleDoc "15" toggleSet 6 7 (by decide) (by decide)).1,
    (toggleFavorite_double_toggle toggleDoc "15" toggleSet 6 7
      (by decide) (by decide)).2.1⟩

/-- C6 counterexample: on a document whose favorites index holds an id with
no matching record, delete returns false and never writes, so the stray id
survives in the persisted favorites index, contradicting the claim that
delete removes the id from the favorites index on every document. -/
theorem delete_keeps_stray_favorite :
    TabStorage.deleteTabSet "x" strayFavoriteDoc = (false, strayFavoriteDoc) ∧
    "x" ∈ (TabStorage.deleteTabSet "x" strayFavoriteDoc).2.favorites := by decide

/-- C6 (amended): when a record with the id exists, delete removes every
record and favorites entry with that id and returns true, and a repeated
delete of the same id returns false and leaves the persisted document
unchanged; when no record matches, delete returns false and leaves the
persisted document unchanged (so a stray favorites entry with no matching
record is not removed). -/
theorem deleteTabSet_spec (d : Document) (i : String) :
    ((∃ s ∈ d.tabSets, s.id = i) →
      (TabStorage.deleteTabSet i d).1 = true ∧
      (TabStorage.deleteTabSet i d).2.tabSets = d.tabSets.filter (fun s => s.id != i) ∧
      (TabStorage.deleteTabSet i d).2.favorites = d.favorites.filter (fun f => f != i) ∧
      (∀ s ∈ (TabStorage.deleteTabSet i d).2.tabSets, s.id ≠ i) ∧
      i ∉ (TabStorage.deleteTabSet i d).2.favorites ∧
      TabStorage.deleteTabSet i (TabStorage.deleteTabSet i d).2
        = (false, (TabStorage.deleteTabSet i d).2)) ∧
    ((∀ s ∈ d.tabSets, s.id ≠ i) → TabStorage.deleteTabSet i d = (false, d)) := by
  constructor
  · rintro ⟨s, hs, hsi⟩
    have hlt : (d.tabSets.filter (fun s => s.id != i)).length < d.tabSets.length := by
      have hle := List.length_filter_le (fun s => s.id != i) d.tabSets
      have hne : ¬ (d.tabSets.filter (fun s => s.id != i)).length = d.tabSets.length := by
        rw [List.filter_length_eq_length]
        intro hall
        have hcontra := hall s hs
        rw [hsi] at hcontra
        simp at hcontra
      omega
    have hred : TabStorage.deleteTabSet i d =
        (true,
          { tabSets := d.tabSets.filter (fun s => s.id != i)
            favorites := d.favorites.filter (fun f => f != i) }) := by
      simp only [TabStorage.deleteTabSet, if_pos hlt]
    rw [hred]
    refine ⟨rfl, rfl, rfl, ?_, ?_, ?_⟩
    · intro t ht
      have := (List.mem_filter.1 ht).2
      simpa using this
    · intro hmem
      have := (List.mem_filter.1 hmem).2
      simp at this
    · have hall : ∀ t ∈ d.tabSets.filter (fun s => s.id != i),
          ((fun s => s.id != i) t) = true := fun t ht => (List.mem_filter.1 ht).2
      simp only [TabStorage.deleteTabSet]
      rw [List.filter_eq_self.2 hall]
      simp
  · intro hnone
    have hall : ∀ s ∈ d.tabSets, ((fun s => s.id != i) s) = true := by
      intro s hs
      simpa using hnone s hs
    simp only [TabStorage.deleteTabSet]
    rw [List.filter_eq_self.2 hall]
    simp

/-- Witness for C6 (amended): deleting the sample favorite record removes
it and its favorites entry and returns true, and deleting it again is a
false no-op. -/
theorem deleteTabSet_spec_witness :
    (TabStorage.deleteTabSet "20" deleteDoc).1 = true ∧
    (∀ s ∈ (TabStorage.deleteTabSet "20" deleteDoc).2.tabSets, s.id ≠ "20") ∧
    "20" ∉ (TabStorage.deleteTabSet "20" deleteDoc).2.favorites ∧
    TabStorage.deleteTabSet "20" (TabStorage.deleteTabSet "20" deleteDoc).2
      = (false, (TabStorage.deleteTabSet "20" deleteDoc).2) :=
  ⟨((deleteTabSet_spec deleteDoc "20").1 ⟨deleteSet, by decide, by decide⟩).1,
   ((deleteTabSet_spec deleteDoc "20").1 ⟨deleteSet, by decide, by decide⟩).2.2.2.1,
   ((deleteTabSet_spec deleteDoc "20").1 ⟨deleteSet, by decide, by decide⟩).2.2.2.2.1,
   ((deleteTabSet_spec deleteDoc "20").1 ⟨deleteSet, by decide, by decide⟩).2.2.2.2.2⟩

/-- C7: `getLatestTabSetForBranch(b)` returns a stored tab set whose branch
strictly equals `b` and whose `updatedAt` is maximal among the records
matching `b`, and returns `null` exactly when no stored record's branch
equals `b`. -/
theorem getLatestTabSetForBranch_spec (d : Document) (b : JStr) :
    (∀ s, TabStorage.getLatestTabSetForBranch b d = some s →
      s ∈ d.tabSets ∧ JStr.jeq s.branch b = true ∧
      ∀ t ∈ d.tabSets, JStr.jeq t.branch b = true → t.updatedAt ≤ s.updatedAt) ∧
    (TabStorage.getLatestTabSetForBranch b d = none →
      ∀ t ∈ d.tabSets, JStr.jeq t.branch b = false) := by
  constructor
  · intro s hs
    rw [TabStorage.getLatestTabSetForBranch] at hs
    cases hsort : TabStorage.sortByUpdatedDesc (TabStorage.getTabSetsByBranch b d) with
    | nil => rw [hsort] at hs; exact absurd hs (by simp)
    | cons shead rest =>
      rw [hsort] at hs
      injection hs with hs
      subst hs
      have hmem : shead ∈ TabStorage.getTabSetsByBranch b d :=
        TabStorage.mem_sortByUpdatedDesc.1 (hsort ▸ List.mem_cons_self shead rest)
      rw [TabStorage.getTabSetsByBranch] at hmem
      obtain ⟨hmem2, hbr⟩ := List.mem_filter.1 hmem
      refine ⟨hmem2, hbr, ?_⟩
      intro t ht htb
      exact TabStorage.sortByUpdatedDesc_head_max hsort t
        (List.mem_filter.2 ⟨ht, htb⟩)
  · intro hnone t ht
    rw [TabStorage.getLatestTabSetForBranch] at hnone
    cases hsort : TabStorage.sortByUpdatedDesc (TabStorage.getTabSetsByBranch b d) with
    | cons shead rest => rw [hsort] at hnone; exact absurd hnone (by simp)
    | nil =>
      have hnil : TabStorage.getTabSetsByBranch b d = [] :=
        TabStorage.sortByUpdatedDesc_eq_nil.1 hsort
      rw [TabStorage.getTabSetsByBranch] at hnil
      by_contra hc
      have hmem : t ∈ d.tabSets.filter fun u => JStr.jeq u.branch b :=
        List.mem_filter.2 ⟨ht, by simpa using hc⟩
      rw [hnil] at hmem
      simp at hmem

/-- Witness for C7: on the four-record sample document the latest record
for branch `main` is the one updated at instant 9, and it dominates every
`main` record. -/
theorem getLatestTabSetForBranch_spec_witness :
    TabStorage.getLatestTabSetForBranch (JStr.jstr "main") latestDoc
      = some (mkSet "31" "Newest" (JStr.jstr "main") JStr.jundef 2 9 false) ∧
    ((mkSet "31" "Newest" (JStr.jstr "main") JStr.jundef 2 9 false) ∈ latestDoc.tabSets ∧
      JStr.jeq (mkSet "31" "Newest" (JStr.jstr "main") JStr.jundef 2 9 false).branch
        (JStr.jstr "main") = true ∧
      ∀ t ∈ latestDoc.tabSets, JStr.jeq t.branch (JStr.jstr "main") = true →
        t.updatedAt ≤ (mkSet "31" "Newest" (JStr.jstr "main") JStr.jundef 2 9 false).updatedAt) :=
  ⟨by decide,
    (getLatestTabSetForBranch_spec latestDoc (JStr.jstr "main")).1
      (mkSet "31" "Newest" (JStr.jstr "main") JStr.jundef 2 9 false) (by decide)⟩

/-- C8: whenever the backing document cannot be read (the raw read is an
error) or cannot be parsed (the parse function rejects the text),
`readData` returns the empty-document shape; the embedding is a total
function, so no read or parse failure escapes as an exception. -/
theorem readData_recovers_to_empty (parse : String → Except String Document)
    (raw : Except String String)
    (h : (∃ e, raw = Except.error e) ∨
      ∃ text e, raw = Except.ok text ∧ parse text = Except.error e) :
    TabStorage.readData parse raw = TabStorage.emptyDocument := by
  rcases h with ⟨e, rfl⟩ | ⟨text, e, rfl, hp⟩
  · rfl
  · simp [TabStorage.readData, hp]

/-- Witness for C8: a failed read and an unparsable text both yield the
empty document. -/
theorem readData_recovers_to_empty_witness :
    (∃ e, (Except.error "ENOENT" : Except String String) = Except.error e) ∧
    TabStorage.readData failingParse (Except.error "ENOENT")
      = TabStorage.emptyDocument ∧
    (∃ text e, (Except.ok "garbage" : Except String String) = Except.ok text ∧
      failingParse text = Except.error e) ∧
    TabStorage.readData failingParse (Except.ok "garbage")
      = TabStorage.emptyDocument :=
  ⟨⟨"ENOENT", rfl⟩,
    readData_recovers_to_empty failingParse (Except.error "ENOENT")
      (Or.inl ⟨"ENOENT", rfl⟩),
    ⟨"garbage", "Unexpected token", rfl, rfl⟩,
    readData_recovers_to_empty failingParse (Except.ok "garbage")
      (Or.inr ⟨"garbage", "Unexpected token", rfl, rfl⟩)⟩

theorem applyOp_timeOK {now t : Nat} (op : Op) {d : Document} (ht : t ≤ now)
    (hd : TimeOK t d) : TimeOK now (applyOp now op d) := by
  cases op with
  | save name tabs branch isFavorite =>
    intro s hs
    simp only [applyOp, TabStorage.saveTabSet] at hs
    rcases List.mem_append.1 hs with hmem | hmem
    · obtain ⟨h1, h2⟩ := hd s hmem
      exact ⟨h1, Nat.le_trans h2 ht⟩
    · rcases List.mem_cons.1 hmem with rfl | hmem
      · exact ⟨Nat.le_refl _, Nat.le_refl _⟩
      · simp at hmem
  | rename id newName =>
    cases hf : d.tabSets.find? (fun s => s.id == id) with
    | none =>
      intro s hs
      simp only [applyOp, TabStorage.renameTabSet, hf] at hs
      obtain ⟨h1, h2⟩ := hd s hs
      exact ⟨h1, Nat.le_trans h2 ht⟩
    | some x =>
      intro s hs
      simp only [applyOp, TabStorage.renameTabSet, hf] at hs
      refine @TabStorage.updateFirst_forall _ _
        (fun z => z.createdAt ≤ z.updatedAt ∧ z.updatedAt ≤ now) _ ?_ ?_ s hs
      · intro y hy
        exact ⟨(hd y hy).1, Nat.le_trans (hd y hy).2 ht⟩
      · intro y hy
        exact ⟨Nat.le_trans (Nat.le_trans (hd y hy).1 (hd y hy).2) ht, Nat.le_refl _⟩
  | toggle id =>
    cases hf : d.tabSets.find? (fun s => s.id == id) with
    | none =>
      intro s hs
      simp only [applyOp, TabStorage.toggleFavorite, hf] at hs
      obtain ⟨h1, h2⟩ := hd s hs
      exact ⟨h1, Nat.le_trans h2 ht⟩
    | some x =>
      intro s hs
      simp only [applyOp, TabStorage.toggleFavorite, hf] at hs
      refine @TabStorage.updateFirst_forall _ _
        (fun z => z.createdAt ≤ z.updatedAt ∧ z.updatedAt ≤ now) _ ?_ ?_ s hs
      · intro y hy
        exact ⟨(hd y hy).1, Nat.le_trans (hd y hy).2 ht⟩
      · intro y hy
        exact ⟨Nat.le_trans (Nat.le_trans (hd y hy).1 (hd y hy).2) ht, Nat.le_refl _⟩
  | delete id =>
    intro s hs
    by_cases hc : (d.tabSets.filter fun u => u.id != id).length < d.tabSets.length
    · simp only [applyOp, TabStorage.deleteTabSet, if_pos hc] at hs
      obtain ⟨h1, h2⟩ := hd s (List.mem_filter.1 hs).1
      exact ⟨h1, Nat.le_trans h2 ht⟩
    · simp only [applyOp, TabStorage.deleteTabSet, if_neg hc] at hs
      obtain ⟨h1, h2⟩ := hd s hs
      exact ⟨h1, Nat.le_trans h2 ht⟩

theorem runOps_createdAt_le (ops : List (Nat × Op)) :
    ∀ (d : Document) (t : Nat), TimeOK t d →
      List.Chain' (· ≤ ·) (t :: ops.map Prod.fst) →
      ∀ s ∈ (runOps d ops).tabSets, s.createdAt ≤ s.updatedAt := by
  induction ops with
  | nil =>
    intro d t hd _ s hs
    exact (hd s hs).1
  | cons head rest ih =>
    obtain ⟨now, op⟩ := head
    intro d t hd hch s hs
    rw [List.map_cons] at hch
    obtain ⟨h1, h2⟩ := List.chain'_cons.1 hch
    rw [runOps] at hs
    exact ih (applyOp now op d) now (applyOp_timeOK op h1 hd) h2 s hs

/-- C9: every tab set returned by `saveTabSet` has `updatedAt` equal to
`createdAt` (both are the save instant), and in every document reachable
from the empty document through a sequence of store operations whose
instants are non-decreasing (time moves forward), every record satisfies
`createdAt ≤ updatedAt`. -/
theorem save_timestamps_equal_and_monotone :
    (∀ (now : Nat) (name : String) (tabs : List TabInput) (branch : JStr)
        (fav : Bool) (d : Document),
      ((TabStorage.saveTabSet now name tabs branch fav d).1).updatedAt
        = ((TabStorage.saveTabSet now name tabs branch fav d).1).createdAt) ∧
    (∀ ops : List (Nat × Op), List.Chain' (· ≤ ·) (ops.map Prod.fst) →
      ∀ s ∈ (runOps TabStorage.emptyDocument ops).tabSets,
        s.createdAt ≤ s.updatedAt) := by
  constructor
  · intro now name tabs branch fav d
    rfl
  · intro ops hch s hs
    refine runOps_createdAt_le ops TabStorage.emptyDocument 0 ?_ ?_ s hs
    · intro u hu
      simp [TabStorage.emptyDocument] at hu
    · cases hm : ops.map Prod.fst with
      | nil => simp
      | cons x xs =>
        rw [hm] at hch
        exact List.chain'_cons.2 ⟨Nat.zero_le x, hch⟩

/-- Witness for C9: a five-operation history at non-decreasing instants. -/
theorem save_timestamps_equal_and_monotone_witness :
    List.Chain' (· ≤ ·) (sampleOps.map Prod.fst) ∧
    ∀ s ∈ (runOps TabStorage.emptyDocument sampleOps).tabSets,
      s.createdAt ≤ s.updatedAt :=
  ⟨by norm_num [sampleOps, List.chain'_cons],
    save_timestamps_equal_and_monotone.2 sampleOps
      (by norm_num [sampleOps, List.chain'_cons])⟩

/-- C10: renaming an existing id changes only the `name` and `updatedAt`
of the record carrying it: the record keeps its `id`, `branch`, `scope`,
`tabs`, `createdAt` and `isFavorite`, every other record is untouched and
keeps its position, and the favorites index is unchanged in the persisted
document. -/
theorem rename_frame (d : Document) (i n : String) (s0 : TabSet) (now : Nat)
    (hfind : d.tabSets.find? (fun s => s.id == i) = some s0) :
    (TabStorage.renameTabSet now i n d).2.favorites = d.favorites ∧
    ∃ a b, d.tabSets = a ++ s0 :: b ∧
      (TabStorage.renameTabSet now i n d).2.tabSets
        = a ++ { s0 with name := n, updatedAt := now } :: b := by
  have hred : (TabStorage.renameTabSet now i n d).2 =
      { d with
        tabSets :=
          TabStorage.updateFirst (fun s => s.id == i)
            (fun s => { s with name := n, updatedAt := now }) d.tabSets } := by
    simp [TabStorage.renameTabSet, hfind]
  obtain ⟨a, b, hl, ha, hx⟩ := find?_eq_some_decomp hfind
  refine ⟨by rw [hred], a, b, hl, ?_⟩
  rw [hred]
  show TabStorage.updateFirst (fun s => s.id == i)
      (fun s => { s with name := n, updatedAt := now }) d.tabSets
    = a ++ { s0 with name := n, updatedAt := now } :: b
  rw [hl]
  exact TabStorage.updateFirst_append ha hx

/-- Witness for C10: renaming the sample record at instant 11 leaves every
field but `name` and `updatedAt`, and the favorites index, unchanged. -/
theorem rename_frame_witness :
    renameDoc.tabSets.find? (fun s => s.id == "10") = some renameSet ∧
    (TabStorage.renameTabSet 11 "10" "Renamed" renameDoc).2.favorites
      = renameDoc.favorites ∧
    ∃ a b, renameDoc.tabSets = a ++ renameSet :: b ∧
      (TabStorage.renameTabSet 11 "10" "Renamed" renameDoc).2.tabSets
        = a ++ { renameSet with name := "Renamed", updatedAt := 11 } :: b :=
  ⟨by decide,
    (rename_frame renameDoc "10" "Renamed" renameSet 11 (by decide)).1,
    (rename_frame renameDoc "10" "Renamed" renameSet 11 (by decide)).2⟩
